import Mathlib

/-!
Verification development for the receipt text-extraction core
(receiptParser: extractReceiptData / extractVendor / extractDate /
extractTotal / validateReceiptData).

The TypeScript source is shallowly embedded: strings are lists of
characters (each receipt character is one UTF-16 code unit in the
source's working set, all BMP), JavaScript regular expressions are
embedded by a small backtracking engine that returns candidate match
lengths in the engine's preference order (greedy quantifiers longest
first, alternation left first), and JavaScript numbers arising from
`parseFloat` on captured amount strings (always of shape digits
optionally followed by a dot and two digits) are represented exactly as
integer cent counts.  Case-insensitive matching folds ASCII letters,
which covers every character the embedded patterns and analyzed inputs
use.  Note: the source file literally contains the three-character
sequence U+201A U+00C7 U+03C0 (a mis-encoded rupee sign) in its
patterns and currency literals; the embedding reproduces those bytes
faithfully.
-/

namespace OneClick

/-- Characters of a JS string, one entry per UTF-16 code unit
(all characters involved are in the BMP). -/
abbrev Str := List Char

/-- ASCII lower-casing, the case fold used for the /i regex flag and for
`toLowerCase` on the data handled here. -/
def lowerC (c : Char) : Char :=
  if 'A' ≤ c && c ≤ 'Z' then Char.ofNat (c.toNat + 32) else c

/-- ASCII upper-casing (`toUpperCase` on the data handled here). -/
def upperC (c : Char) : Char :=
  if 'a' ≤ c && c ≤ 'z' then Char.ofNat (c.toNat - 32) else c

/-- JavaScript whitespace (the `\s` class and `trim`): tab, LF, VT, FF,
CR, space, NBSP, plus the Unicode space separators and BOM. -/
def jsSpace (c : Char) : Bool :=
  c == ' ' || c == '\t' || c == '\n' || c == Char.ofNat 0x0B ||
  c == Char.ofNat 0x0C || c == '\r' || c == Char.ofNat 0xA0 ||
  c == Char.ofNat 0x1680 ||
  (Char.ofNat 0x2000 ≤ c && c ≤ Char.ofNat 0x200A) ||
  c == Char.ofNat 0x2028 || c == Char.ofNat 0x2029 ||
  c == Char.ofNat 0x202F || c == Char.ofNat 0x205F ||
  c == Char.ofNat 0x3000 || c == Char.ofNat 0xFEFF

/-- The `\d` regex class. -/
def isDigitC (c : Char) : Bool := '0' ≤ c && c ≤ '9'

/-- The `[a-zA-Z]` regex class. -/
def isAsciiLetter (c : Char) : Bool :=
  ('a' ≤ c && c ≤ 'z') || ('A' ≤ c && c ≤ 'Z')

/-- The `\w` regex class. -/
def isWordC (c : Char) : Bool :=
  isAsciiLetter c || isDigitC c || c == '_'

/-- `String.prototype.trim`. -/
def jsTrim (s : Str) : Str :=
  ((s.dropWhile jsSpace).reverse.dropWhile jsSpace).reverse

/-- Case-insensitive character comparison (ASCII fold). -/
def ciEq (x c : Char) : Bool := lowerC x == lowerC c

/-- Does `pat` occur at the head of `s`, case-insensitively? -/
def startsWithCI : Str → Str → Bool
  | _, [] => true
  | [], _ :: _ => false
  | x :: xs, c :: cs => ciEq x c && startsWithCI xs cs

/-- Case-insensitive substring containment (the effect of testing a
`gi` regex built from an escaped literal). -/
def containsCI : Str → Str → Bool
  | _, [] => true
  | [], _ :: _ => false
  | x :: xs, pat => startsWithCI (x :: xs) pat || containsCI xs pat

/-- Case-sensitive prefix test. -/
def startsWithCS : Str → Str → Bool
  | _, [] => true
  | [], _ :: _ => false
  | x :: xs, c :: cs => x == c && startsWithCS xs cs

/-- Case-sensitive substring containment (`String.prototype.includes`). -/
def containsCS : Str → Str → Bool
  | _, [] => true
  | [], _ :: _ => false
  | x :: xs, pat => startsWithCS (x :: xs) pat || containsCS xs pat

/-- `String.prototype.indexOf`: offset of the first occurrence of
`pat` in `s`, or `none`. -/
def indexOfSub : Str → Str → Option Nat
  | s, pat =>
    if startsWithCS s pat then some 0
    else match s with
      | [] => none
      | _ :: xs => (indexOfSub xs pat).map (· + 1)

/-- Numeric value of a digit string (leading zeros allowed). -/
def natOfDigits (s : Str) : Nat :=
  s.foldl (fun acc c => 10 * acc + (c.toNat - '0'.toNat)) 0

/-- Decimal digits of a natural number. -/
def natRepr (n : Nat) : Str := (Nat.repr n).data

/-- `padStart(2, '0')`. -/
def pad2 (s : Str) : Str :=
  if s.length ≥ 2 then s else List.replicate (2 - s.length) '0' ++ s

/-! ## A preference-ordered backtracking regex engine

`matchList r s` lists every number of characters a match of `r` can
consume from the front of `s`, in the backtracking engine's preference
order: alternations try the left branch first, greedy quantifiers try
longer repetitions first.  The head of the list is the match the JS
engine commits to at this position. -/

/-- Regular-expression shapes needed by the receipt parser: character
classes, concatenation, alternation and Kleene star (bounded repetition
and option are derived). -/
inductive RE : Type where
  | eps : RE
  | cls : (Char → Bool) → RE
  | cat : RE → RE → RE
  | alt : RE → RE → RE
  | star : RE → RE

/-- Iterate a star body.  Each counted iteration consumes at least one
character, so `s.length + 1` units of fuel are always enough; the
trailing `[0]` is the "stop iterating" choice, tried last (greedy). -/
def starList (body : Str → List Nat) : Nat → Str → List Nat
  | 0, _ => [0]
  | fuel + 1, s =>
    (((body s).filter (0 < ·)).map fun n =>
      (starList body fuel (s.drop n)).map (n + ·)).flatten ++ [0]

/-- All candidate consumption lengths of `r` on the front of `s`,
in preference order. -/
def matchList : RE → Str → List Nat
  | .eps, _ => [0]
  | .cls p, s =>
    match s with
    | [] => []
    | c :: _ => if p c then [1] else []
  | .cat a b, s =>
    ((matchList a s).map fun n =>
      (matchList b (s.drop n)).map (n + ·)).flatten
  | .alt a b, s => matchList a s ++ matchList b s
  | .star r, s => starList (matchList r) (s.length + 1) s

/-- Left-biased alternation of a list of alternatives. -/
def altL : List RE → RE
  | [] => .cls fun _ => false
  | [r] => r
  | r :: rs => .alt r (altL rs)

/-- Concatenation of a list. -/
def seqL : List RE → RE
  | [] => .eps
  | [r] => r
  | r :: rs => .cat r (seqL rs)

/-- Greedy option (`?`). -/
def optR (r : RE) : RE := .alt r .eps

/-- Case-insensitive literal (every embedded pattern carries the `i`
flag). -/
def lit (s : String) : RE := seqL (s.data.map fun c => .cls (ciEq · c))

/-- Case-insensitive character class given by its members. -/
def clsOf (s : String) : RE := .cls fun x => s.data.any (ciEq x ·)

/-- `r{n}`. -/
def repN (r : RE) : Nat → RE
  | 0 => .eps
  | n + 1 => .cat r (repN r n)

/-- `r{n,m}` (greedy). -/
def repRange (r : RE) (n m : Nat) : RE :=
  seqL (List.replicate n r ++ List.replicate (m - n) (optR r))

/-- `r{n,}` (greedy). -/
def repAtLeast (r : RE) (n : Nat) : RE := .cat (repN r n) (.star r)

/-- `r+` (greedy). -/
def plus (r : RE) : RE := .cat r (.star r)

/-- The minimum number of characters `r` can consume; used to show the
scanning loops make progress. -/
def minConsume : RE → Nat
  | .eps => 0
  | .cls _ => 1
  | .cat a b => minConsume a + minConsume b
  | .alt a b => min (minConsume a) (minConsume b)
  | .star _ => 0

theorem starList_mem_le (body : Str → List Nat)
    (hb : ∀ s n, n ∈ body s → n ≤ s.length) :
    ∀ fuel s n, n ∈ starList body fuel s → n ≤ s.length := by
  intro fuel
  induction fuel with
  | zero => intro s n h; simp [starList] at h; omega
  | succ f ih =>
    intro s n h
    simp only [starList, List.mem_append, List.mem_flatten, List.mem_map] at h
    rcases h with ⟨l, ⟨m, hm, rfl⟩, hn⟩ | h
    · simp only [List.mem_map] at hn
      rcases hn with ⟨k, hk, rfl⟩
      have hm' := List.mem_filter.mp hm
      have h1 := hb s m hm'.1
      have h2 := ih (s.drop m) k hk
      simp only [List.length_drop] at h2
      omega
    · simp at h; omega

theorem matchList_mem_le (r : RE) :
    ∀ s n, n ∈ matchList r s → n ≤ s.length := by
  induction r with
  | eps => intro s n h; simp [matchList] at h; omega
  | cls p =>
    intro s n h
    cases s with
    | nil => simp [matchList] at h
    | cons c cs =>
      simp only [matchList] at h
      by_cases hp : p c
      · simp [hp] at h; simp [h]
      · simp [hp] at h
  | cat a b iha ihb =>
    intro s n h
    simp only [matchList, List.mem_flatten, List.mem_map] at h
    rcases h with ⟨l, ⟨m, hm, rfl⟩, hn⟩
    simp only [List.mem_map] at hn
    rcases hn with ⟨k, hk, rfl⟩
    have h1 := iha s m hm
    have h2 := ihb (s.drop m) k hk
    simp only [List.length_drop] at h2
    omega
  | alt a b iha ihb =>
    intro s n h
    simp only [matchList, List.mem_append] at h
    rcases h with h | h
    · exact iha s n h
    · exact ihb s n h
  | star r ih =>
    intro s n h
    exact starList_mem_le (matchList r) ih _ s n h

theorem matchList_min_le (r : RE) :
    ∀ s n, n ∈ matchList r s → minConsume r ≤ n := by
  induction r with
  | eps => intro s n h; simp [matchList] at h; simp [minConsume, h]
  | cls p =>
    intro s n h
    cases s with
    | nil => simp [matchList] at h
    | cons c cs =>
      simp only [matchList] at h
      by_cases hp : p c
      · simp [hp] at h; simp [minConsume, h]
      · simp [hp] at h
  | cat a b iha ihb =>
    intro s n h
    simp only [matchList, List.mem_flatten, List.mem_map] at h
    rcases h with ⟨l, ⟨m, hm, rfl⟩, hn⟩
    simp only [List.mem_map] at hn
    rcases hn with ⟨k, hk, rfl⟩
    have h1 := iha s m hm
    have h2 := ihb (s.drop m) k hk
    simp only [minConsume]
    omega
  | alt a b iha ihb =>
    intro s n h
    simp only [matchList, List.mem_append] at h
    simp only [minConsume]
    rcases h with h | h
    · have := iha s n h; omega
    · have := ihb s n h; omega
  | star r ih =>
    intro s n h
    simp [minConsume]

/-! ## Global scanning (the `while ((match = pattern.exec(text)) !== null)`
loops) and regex-based utilities -/

/-- A pattern as used by the parser: a prefix part, the capture group
(`match[1]`), and a suffix part.  Every date and total pattern has this
shape (inner groups are inlined, since only group 1 is consulted). -/
structure Pat : Type where
  pre : RE
  grp : RE
  post : RE

/-- One recorded match: start offset, total length, the matched text
`match[0]` and the captured group `match[1]`. -/
structure RawMatch : Type where
  pos : Nat
  len : Nat
  mstr : Str
  cap : Str
deriving DecidableEq, Repr

/-- Attempt a match of `P` exactly at offset `i` of `s`, backtracking in
preference order across the three parts; returns the consumed lengths
`(pre, grp, post)` of the first full success. -/
def tryAt (P : Pat) (s : Str) (i : Nat) : Option (Nat × Nat × Nat) :=
  let t := s.drop i
  (matchList P.pre t).findSome? fun a =>
    (matchList P.grp (t.drop a)).findSome? fun b =>
      (matchList P.post ((t.drop a).drop b)).head?.map fun c => (a, b, c)

/-- Build the `RawMatch` for a success of `tryAt` at offset `i`. -/
def mkMatch (s : Str) (i : Nat) : Nat × Nat × Nat → RawMatch
  | (a, b, c) =>
    { pos := i, len := a + b + c,
      mstr := (s.drop i).take (a + b + c),
      cap := ((s.drop i).drop a).take b }

/-- Earliest match of `P` at an offset `≥ i` (`exec` from `lastIndex
= i`); `k` bounds the number of offsets still to try. -/
def firstFrom (P : Pat) (s : Str) : Nat → Nat → Option RawMatch
  | 0, _ => none
  | k + 1, i =>
    match tryAt P s i with
    | some abc => some (mkMatch s i abc)
    | none => if i < s.length then firstFrom P s k (i + 1) else none

/-- The matches produced by a `g`-flagged `exec` loop, resuming each
search at the end of the previous match.  `fuel` bounds the iteration
count; every pattern here consumes at least one character per match
(proved below), so `s.length + 1` is always enough. -/
def scanFrom (P : Pat) (s : Str) : Nat → Nat → List RawMatch
  | 0, _ => []
  | fuel + 1, i =>
    match firstFrom P s (s.length + 1 - i) i with
    | none => []
    | some m => m :: scanFrom P s fuel (m.pos + m.len)

/-- All matches of `P` over `s`, in scan order. -/
def allMatches (P : Pat) (s : Str) : List RawMatch :=
  scanFrom P s (s.length + 1) 0

/-- `RegExp.prototype.test` for an unanchored pattern. -/
def testRE (r : RE) (s : Str) : Bool :=
  (firstFrom ⟨r, .eps, .eps⟩ s (s.length + 1) 0).isSome

/-- `RegExp.prototype.test` for a `^`-anchored pattern: only offset 0. -/
def testAnchored (r : RE) (s : Str) : Bool :=
  (matchList r s).head?.isSome

/-- `String.prototype.replace` with a global pattern and a constant
replacement: at each offset, either splice in the replacement for the
preferred match (advancing past it, or by one character for an empty
match) or copy one character. -/
def replaceAllGo (r : RE) (repl : Str) : Nat → Str → Str
  | 0, s => s
  | _, [] => []
  | fuel + 1, c :: rest =>
    match (matchList r (c :: rest)).head? with
    | some 0 => repl ++ c :: replaceAllGo r repl fuel rest
    | some (n + 1) => repl ++ replaceAllGo r repl fuel ((c :: rest).drop (n + 1))
    | none => c :: replaceAllGo r repl fuel rest

/-- Entry point for `replace`: each step handles at least one character,
so `s.length` steps always complete the traversal. -/
def replaceAllRE (r : RE) (repl : Str) (s : Str) : Str :=
  replaceAllGo r repl s.length s

mutual

/-- Piece-accumulating state of `splitRuns`: `cur` is the current piece
reversed. -/
def splitRunsGo (p : Char → Bool) : Str → Str → List Str
  | [], cur => [cur.reverse]
  | c :: rest, cur =>
    if p c then cur.reverse :: splitRunsSep p rest
    else splitRunsGo p rest (c :: cur)

/-- Separator-run state of `splitRuns`: the piece before the run has
been emitted; absorb the rest of the run. -/
def splitRunsSep (p : Char → Bool) : Str → List Str
  | [] => [[]]
  | c :: rest => if p c then splitRunsSep p rest else splitRunsGo p rest [c]

end

/-- Split on maximal nonempty runs of separator characters, the behavior
of splitting on a one-or-more-repeated character class: empty leading
and trailing pieces are kept, and the empty string splits to one empty
piece. -/
def splitRuns (p : Char → Bool) (s : Str) : List Str :=
  splitRunsGo p s []

/-- Case-sensitive literal (for the few patterns without the `i`
flag). -/
def litCS (s : String) : RE := seqL (s.data.map fun c => .cls (· == c))

/-- Case-insensitive literal built from raw characters. -/
def litS (l : Str) : RE := seqL (l.map fun c => .cls (ciEq · c))

/-- The three characters standing where the source means the rupee sign
(the literal bytes of the source file, a mis-encoded U+20B9). -/
def mojiRupee : Str := [Char.ofNat 0x201A, Char.ofNat 0x00C7, Char.ofNat 0x03C0]

/-- The genuine rupee sign, as it appears in receipt input text. -/
def rupee : Char := Char.ofNat 0x20B9

/-- `\d`. -/
def dRE : RE := .cls isDigitC

/-- `\s`. -/
def wsRE : RE := .cls jsSpace

/-- `\s*`. -/
def wsStar : RE := .star wsRE

/-- `\s+`. -/
def wsPlus : RE := plus wsRE

/-- `[:\s]*`. -/
def colonWsStar : RE := .star (.cls fun c => c == ':' || jsSpace c)

/-! ## Vendor extraction (`extractVendor` and its helpers) -/

/-- The fixed, ordered known-vendor lexicon (source lines 57–113). -/
def knownVendors : List Str := List.map String.data [
  "bistro box", "bistro box departures",
  "metro cash", "walmart", "best price",
  "reliance fresh", "reliance mart", "reliance digital", "reliance trends",
  "big bazaar", "food bazaar", "fashion at big bazaar",
  "more", "more megastore", "more supermarket",
  "spencer's", "spencer's retail", "spencer's hyper",
  "dmart", "avenue supermarts", "d-mart",
  "easyday", "easyday club",
  "star bazaar", "trent hypermarket",
  "hypercity", "shopper's stop",
  "nature's basket", "godrej nature's basket",
  "twenty four seven", "24seven", "24x7",
  "mcdonald's", "mcdonalds", "mcd",
  "domino's", "dominos pizza", "dominos",
  "pizza hut", "pizzahut",
  "kfc", "kentucky fried chicken",
  "subway", "subway sandwich",
  "burger king", "bk",
  "taco bell",
  "baskin robbins", "dunkin donuts",
  "caf√© coffee day", "ccd", "coffee day",
  "starbucks", "starbucks coffee",
  "barista", "barista coffee",
  "costa coffee", "costa",
  "tim hortons", "blue tokai",
  "haldiram's", "haldirams",
  "bikanervala", "bikaner vala",
  "sagar ratna", "saravana bhavan",
  "udupi", "udupi restaurant",
  "punjabi by nature", "pind balluchi",
  "oh! calcutta", "mainland china",
  "barbeque nation", "bbq nation",
  "absolute barbecues", "ab's",
  "social", "hard rock cafe",
  "tgi friday's", "chili's",
  "hotel", "restaurant", "cafe", "bakery", "sweet shop",
  "medical", "pharmacy", "clinic", "hospital",
  "apollo", "fortis", "max healthcare", "manipal",
  "petrol pump", "gas station", "hp", "bharat petroleum",
  "indian oil", "reliance petroleum", "shell",
  "kirana", "general store", "supermarket", "mart",
  "provision store", "departmental store"]

/-- Title-casing used for vendor results: first character of each
space-separated word upper-cased, the rest lower-cased. -/
def titleWord : Str → Str
  | [] => []
  | c :: rest => upperC c :: rest.map lowerC

/-- `v.split(' ').map(titleWord).join(' ')`. -/
def titleCaseWords (v : Str) : Str :=
  List.intercalate [' '] ((v.splitOn ' ').map titleWord)

/-- `/^\d+[\s-]*\d+[\s-]*\d+/` (phone numbers; anchored). -/
def phonePat : RE :=
  seqL [plus dRE, .star (.cls fun c => jsSpace c || c == '-'),
        plus dRE, .star (.cls fun c => jsSpace c || c == '-'), plus dRE]

/-- Skip patterns of `isLikelyBusinessName` (source lines 161–169),
minus the two anchored ones which are tested at offset 0 only. -/
def bizSkipFloating : List RE := [
  altL [seqL [lit "tax", wsStar, lit "invoice"], lit "receipt", lit "bill"],
  altL [seqL [lit "take", wsStar, lit "away"], seqL [lit "quick", wsStar, lit "sale"]],
  altL [lit "till", lit "cashier", seqL [lit "invoice", wsStar, lit "#"], lit "salesperson"],
  repAtLeast dRE 6,
  altL [lit "gst", lit "abn", lit "phone", lit "ph:"]]

/-- `/^\d+:\d+/i` (time stamps; anchored). -/
def timePat : RE := seqL [plus dRE, litCS ":", plus dRE]

/-- `/(?:bistro|box|departures|restaurant|cafe|market|store|shop|hotel|bar|grill)/i`. -/
def businessWords : RE :=
  altL [lit "bistro", lit "box", lit "departures", lit "restaurant",
        lit "cafe", lit "market", lit "store", lit "shop", lit "hotel",
        lit "bar", lit "grill"]

/-- `isLikelyBusinessName` (source lines 157–185). -/
def isLikelyBusinessName (line : Str) : Bool :=
  if line.length < 3 then false
  else if testAnchored phonePat line || bizSkipFloating.any (testRE · line) ||
      testAnchored timePat line then false
  else if !line.any isAsciiLetter || line.length > 40 then false
  else if testRE businessWords line then true
  else
    let words := (splitRuns jsSpace line).filter (fun w => w.length > 0)
    decide (words.length ≥ 2) && decide (words.length ≤ 5)

/-- Skip patterns of `isLikelyVendorName` (source lines 194–205), in
order; the anchored phone pattern is handled separately. -/
def vendorSkipFloating : List RE := [
  repAtLeast dRE 6,
  litCS "@",
  altL [litCS "www.", litCS ".com", litCS ".in"],
  altL [lit "address", lit "add:", lit "addr:"],
  altL [lit "phone", lit "ph:", lit "tel:", lit "mobile", lit "mob:"],
  altL [lit "gstin", lit "gst", lit "tin", lit "pan"],
  altL [lit "bill", lit "receipt", lit "invoice"],
  altL [lit "date", lit "time"],
  altL [lit "total", lit "amount", litS mojiRupee, lit "rs"]]

/-- `isLikelyVendorName` (source lines 190–218). -/
def isLikelyVendorName (line : Str) : Bool :=
  if line.length < 2 then false
  else if testAnchored phonePat line || vendorSkipFloating.any (testRE · line) then false
  else if !line.any isAsciiLetter then false
  else if line.length > 50 then false
  else true

/-- `formatVendorName` (source lines 223–230): trim, strip characters
outside letters, digits, underscore, whitespace, ampersand, apostrophe
and hyphen, then title-case each space-separated word. -/
def formatVendorName (name : Str) : Str :=
  let cleaned := (jsTrim name).filter fun c =>
    isWordC c || jsSpace c || c == '&' || c == '\'' || c == '-'
  List.intercalate [' '] ((cleaned.splitOn ' ').map titleWord)

/-- The lexicon pass of `extractVendor` (source lines 116–138): for each
entry in order, an exact case-insensitive containment hit, or — for
multi-word entries — containment of any single word longer than 3
characters, returns the entry title-cased. -/
def lexiconFind (text : Str) : Option Str :=
  knownVendors.findSome? fun vendor =>
    if containsCI text vendor then some (titleCaseWords vendor)
    else
      let words := vendor.splitOn ' '
      if words.length > 1 then
        (words.find? fun w => decide (w.length > 3) && containsCI text w).map
          fun _ => titleCaseWords vendor
      else none

/-- `text.split('\n').map(line => line.trim())` — the line sequence the
vendor extractor operates on (source line 43).  Blank lines are kept as
empty entries. -/
def linesOf (text : Str) : List Str := (text.splitOn '\n').map jsTrim

/-- `extractVendor` (source lines 42–152). -/
def extractVendor (text : Str) : Option Str :=
  let lines := linesOf text
  match (lines.take 5).find? isLikelyBusinessName with
  | some line => some (formatVendorName line)
  | none =>
    match lexiconFind text with
    | some v => some v
    | none => ((lines.take 4).find? isLikelyVendorName).map formatVendorName

/-! ## Date extraction (`extractDate`, `formatDate`) -/

/-- `\d{1,2}`. -/
def d12 : RE := repRange dRE 1 2

/-- `\d{2,4}`. -/
def d24 : RE := repRange dRE 2 4

/-- `\d{4}`. -/
def d4 : RE := repN dRE 4

/-- `[\/\-\.]`. -/
def dateSep : RE := clsOf "/-."

/-- `[AaPp][Mm]`. -/
def apPm : RE := .cat (clsOf "ap") (clsOf "m")

/-- The three-letter month alternation. -/
def monthAbbrevRE : RE :=
  altL (["jan", "feb", "mar", "apr", "may", "jun",
         "jul", "aug", "sep", "oct", "nov", "dec"].map lit)

/-- The full month-name alternation. -/
def monthFullRE : RE :=
  altL (["january", "february", "march", "april", "may", "june", "july",
         "august", "september", "october", "november", "december"].map lit)

/-- `\d{1,2}[\/\-\.]\d{1,2}[\/\-\.]\d{4}` — the canonical numeric date
shape, used both as a capture group and in scoring. -/
def fullNumericDate : RE := seqL [d12, dateSep, d12, dateSep, d4]

/-- `(?:date[:\s]*)?`. -/
def datePre : RE := optR (seqL [lit "date", colonWsStar])

/-- The nine date patterns (source lines 238–256), in order. -/
def datePatterns : List Pat := [
  { pre := seqL [d12, litCS ":", repN dRE 2, optR (.cat wsStar apPm), wsPlus],
    grp := seqL [d12, wsPlus, monthAbbrevRE, wsPlus, d24], post := .eps },
  { pre := .eps, grp := seqL [d12, wsPlus, monthFullRE, wsPlus, d24], post := .eps },
  { pre := .eps, grp := seqL [d12, wsPlus, monthAbbrevRE, wsPlus, d24], post := .eps },
  { pre := optR (altL [seqL [lit "date", colonWsStar],
                       seqL [lit "bill", wsStar, lit "date", colonWsStar],
                       seqL [lit "transaction", colonWsStar, lit "date", colonWsStar]]),
    grp := fullNumericDate, post := .eps },
  { pre := datePre, grp := fullNumericDate, post := .eps },
  { pre := datePre, grp := seqL [d4, dateSep, d12, dateSep, d12], post := .eps },
  { pre := datePre,
    grp := seqL [monthFullRE, wsPlus, d12, optR (litCS ","), wsPlus, d4], post := .eps },
  { pre := datePre,
    grp := seqL [d12, clsOf "-/", wsStar, monthAbbrevRE, clsOf "-/", wsStar, d4],
    post := .eps },
  { pre := .eps, grp := fullNumericDate,
    post := seqL [wsPlus, d12, litCS ":", repN dRE 2,
                  optR (seqL [litCS ":", repN dRE 2]), optR (.cat wsStar apPm)] }]

/-- `/(?:date|bill\s*date|transaction\s*date)[:\s]*/gi`, stripped from
each candidate date string (source line 265). -/
def dateLabelStrip : RE :=
  .cat (altL [lit "date", seqL [lit "bill", wsStar, lit "date"],
              seqL [lit "transaction", wsStar, lit "date"]]) colonWsStar

/-- The candidate string taken from a date match:
`match[1] || match[0]`, label-stripped and trimmed. -/
def candDateStr (m : RawMatch) : Str :=
  jsTrim (replaceAllRE dateLabelStrip [] (if m.cap.isEmpty then m.mstr else m.cap))

/-- Confidence score of one date candidate (source lines 267–271). -/
def dateScore (dateStr : Str) : Nat :=
  1 + (if dateStr.contains '/' || dateStr.contains '-' || dateStr.contains '.'
       then 2 else 0)
    + (if testRE d4 dateStr then 2 else 0)
    + (if testRE fullNumericDate dateStr then 3 else 0)

/-- `/(?:today|now|current)\s*(?:date)?/gi`. -/
def todayIndicators : RE :=
  seqL [altL [lit "today", lit "now", lit "current"], wsStar, optR (lit "date")]

/-- The current date as the extractor reads it from `new Date()`:
`month` is stored 1-based (the source uses `getMonth() + 1`). -/
structure JsDate : Type where
  year : Nat
  month : Nat
  day : Nat

/-- The synthesized today string
`DD/MM/YYYY` (source line 285). -/
def todayString (d : JsDate) : Str :=
  pad2 (natRepr d.day) ++ '/' :: pad2 (natRepr d.month) ++ '/' :: natRepr d.year

/-- `parseInt` restricted to the inputs that reach it here (the year
token of a matched date, an optionally-space-led digit string): skip
leading whitespace and read the digit prefix; no digits means `NaN`. -/
def parseIntJs (s : Str) : Option Nat :=
  let ds := (s.dropWhile jsSpace).takeWhile isDigitC
  if ds.isEmpty then none else some (natOfDigits ds)

/-- The month-name numeric substitutions of `formatDate`, in the
source's object-literal insertion order (note: each 3-letter
abbreviation precedes its full name, so the abbreviation replacement
fires first). -/
def monthReplacements : List (String × String) := [
  ("jan", "01"), ("january", "01"),
  ("feb", "02"), ("february", "02"),
  ("mar", "03"), ("march", "03"),
  ("apr", "04"), ("april", "04"),
  ("may", "05"),
  ("jun", "06"), ("june", "06"),
  ("jul", "07"), ("july", "07"),
  ("aug", "08"), ("august", "08"),
  ("sep", "09"), ("september", "09"),
  ("oct", "10"), ("october", "10"),
  ("nov", "11"), ("november", "11"),
  ("dec", "12"), ("december", "12")]

/-- The separator conversion and month-name substitution pass of
`formatDate` (source lines 298–319). -/
def formatDateNormalize (dateStr : Str) : Str :=
  let withSlashes := dateStr.map fun c => if c == '-' || c == '.' then '/' else c
  monthReplacements.foldl
    (fun s nameNum => replaceAllRE (lit nameNum.1) nameNum.2.data s) withSlashes

/-- The split of the normalized date string on slashes and whitespace
(source line 322). -/
def formatDateParts (dateStr : Str) : List Str :=
  splitRuns (fun c => c == '/' || jsSpace c) (formatDateNormalize dateStr)

/-- `formatDate` (source lines 295–342); `currentYear` stands for
`new Date().getFullYear()`. -/
def formatDate (currentYear : Nat) (dateStr : Str) : Str :=
  match formatDateParts dateStr with
  | dayPart :: monthPart :: yearPart :: _ =>
    let day := pad2 dayPart
    let month := pad2 monthPart
    let year :=
      if yearPart.length == 2 then
        match parseIntJs yearPart with
        | some v => natRepr (currentYear / 100 * 100 + v)
        | none => "NaN".data
      else yearPart
    day ++ '/' :: month ++ '/' :: year
  | _ => dateStr

/-- `extractDate` (source lines 236–290): best-scoring candidate over
all patterns (strictly-greater updates, so the first best wins), then
the today-synthesis fallback. -/
def extractDate (today : JsDate) (text : Str) : Option Str :=
  let best := datePatterns.foldl
    (fun acc P =>
      (allMatches P text).foldl
        (fun acc m =>
          let dateStr := candDateStr m
          let score := dateScore dateStr
          if acc.1 < score then (score, some dateStr) else acc)
        acc)
    ((0 : Nat), (none : Option Str))
  match best.2 with
  | some d => some (formatDate today.year d)
  | none => if testRE todayIndicators text then some (todayString today) else none

/-! ## Total extraction (`extractTotal`)

Amounts are represented exactly as cent counts: every captured amount
string has the shape digits (with optional comma/space group
separators, removed before parsing) optionally followed by a dot and
exactly two digits, so `parseFloat` yields `units + hundredths / 100`,
and every predicate the source applies to it (`> 0`, `>= 10`,
`<= 100000`, `% 5 === 0`, `% 1 === 0`, magnitude comparison) coincides
with the exact value for receipt-sized amounts. -/

/-- The amount capture `(\d+(?:[,\s]\d+)*(?:\.\d{2})?)` with a
configurable leading digit requirement. -/
def amountRE (head : RE) : RE :=
  seqL [head,
        .star (.cat (.cls fun c => c == ',' || jsSpace c) (plus dRE)),
        optR (seqL [litCS ".", dRE, dRE])]

/-- `[$‚Çπ]` — the dollar sign together with the source's three
mis-encoded rupee characters. -/
def dollarMojiCls : RE := .cls fun c => c == '$' || mojiRupee.any (ciEq c ·)

/-- The tier-1 keyword alternation
`balance\s*due|(?:grand\s*)?total|net\s*(?:amount|total)|final\s*(?:amount|total)|amount\s*payable|tendered`. -/
def totalKeywords : RE :=
  altL [seqL [lit "balance", wsStar, lit "due"],
        .cat (optR (.cat (lit "grand") wsStar)) (lit "total"),
        seqL [lit "net", wsStar, altL [lit "amount", lit "total"]],
        seqL [lit "final", wsStar, altL [lit "amount", lit "total"]],
        seqL [lit "amount", wsStar, lit "payable"],
        lit "tendered"]

/-- `rs\.?`. -/
def rsDot : RE := .cat (lit "rs") (optR (litCS "."))

/-- Tier 1 (priority 10): keyword, optional `$`, amount. -/
def totalPat1 : Pat × Nat :=
  ({ pre := seqL [totalKeywords, colonWsStar, optR (litCS "$"), wsStar],
     grp := amountRE (plus dRE), post := .eps }, 10)

/-- Tier 2 (priority 9): `\$\s*` then amount. -/
def totalPat2 : Pat × Nat :=
  ({ pre := .cat (litCS "$") wsStar, grp := amountRE (plus dRE), post := .eps }, 9)

/-- Tier 3 (priority 8): `total`, `[$‚Çπ]`, amount. -/
def totalPat3 : Pat × Nat :=
  ({ pre := seqL [lit "total", colonWsStar, dollarMojiCls, wsStar],
     grp := amountRE (plus dRE), post := .eps }, 8)

/-- Tier 4 (priority 7): amount-due keywords then the mis-encoded rupee
sequence — the source's optionality marker binds only to its last
character, so the first two are mandatory here. -/
def totalPat4 : Pat × Nat :=
  ({ pre := seqL [altL [seqL [lit "amount", wsStar, altL [lit "due", lit "payable"]],
                        seqL [lit "balance", wsStar, lit "due"]],
                  colonWsStar,
                  .cls (ciEq · (Char.ofNat 0x201A)), .cls (ciEq · (Char.ofNat 0x00C7)),
                  optR (.cls (ciEq · (Char.ofNat 0x03C0))), wsStar],
     grp := amountRE (plus dRE), post := .eps }, 7)

/-- Tier 5 (priority 6): currency sign first, optional trailing
keyword. -/
def totalPat5 : Pat × Nat :=
  ({ pre := .cat dollarMojiCls wsStar, grp := amountRE (plus dRE),
     post := .cat wsStar (optR (altL [lit "total", lit "amount", lit "due"])) }, 6)

/-- Tier 6 (priority 5): `rs`/`rupees`/`inr` label. -/
def totalPat6 : Pat × Nat :=
  ({ pre := .cat (altL [rsDot, lit "rupees", lit "inr"]) colonWsStar,
     grp := amountRE (plus dRE),
     post := .cat wsStar (optR (altL [lit "total", lit "amount"])) }, 5)

/-- Tier 7 (priority 4): amount followed by a currency token. -/
def totalPat7 : Pat × Nat :=
  ({ pre := .eps, grp := amountRE (plus dRE),
     post := .cat wsStar (altL [dollarMojiCls, rsDot, lit "rupees", lit "inr",
                                lit "aud", lit "usd"]) }, 4)

/-- Tier 8 (priority 1): any bare number with at least two leading
digits. -/
def totalPat8 : Pat × Nat :=
  ({ pre := .eps, grp := amountRE (repAtLeast dRE 2), post := .eps }, 1)

/-- The eight total patterns with their priorities, in order (source
lines 350–391). -/
def totalPatterns : List (Pat × Nat) :=
  [totalPat1, totalPat2, totalPat3, totalPat4,
   totalPat5, totalPat6, totalPat7, totalPat8]

/-- Strip commas and whitespace from a captured amount (source
line 399). -/
def cleanAmount (raw : Str) : Str :=
  raw.filter fun c => !(c == ',' || jsSpace c)

/-- Exact value, in cents, of a cleaned amount string (digits,
optionally a dot and two digits). -/
def parseAmountCents (s : Str) : Nat :=
  match s.splitOn '.' with
  | [intPart] => natOfDigits intPart * 100
  | [intPart, fracPart] => natOfDigits intPart * 100 + natOfDigits fracPart
  | _ => 0

/-- One amount candidate: exact cent value, adjusted score, raw
captured text. -/
structure AmountCand : Type where
  cents : Nat
  score : Nat
  raw : Str
deriving DecidableEq, Repr

/-- The adjusted score of a match under a tier priority (source lines
402–419): `matchIdx` is `text.indexOf(match[0])` — the offset of the
first occurrence of the matched text, not necessarily of this match —
and the last-30% test `matchIndex > textLength * 0.7` is taken exactly. -/
def totalScore (text : Str) (priority : Nat) (m : RawMatch) : Nat :=
  let cents := parseAmountCents (cleanAmount m.cap)
  let matchIdx := (indexOfSub text m.mstr).getD 0
  priority
    + (if m.cap.contains '.' then 2 else 0)
    + (if 1000 ≤ cents && cents ≤ 10000000 then 3 else 0)
    + (if cents % 500 == 0 then 1 else 0)
    + (if 10 * matchIdx > 7 * text.length then 2 else 0)

/-- The candidate a single match contributes, if its amount is positive
(`parseFloat` cannot yield `NaN` on the captured shapes). -/
def candOf (text : Str) (priority : Nat) (m : RawMatch) : Option AmountCand :=
  let cents := parseAmountCents (cleanAmount m.cap)
  if 0 < cents then some ⟨cents, totalScore text priority m, m.cap⟩ else none

/-- All candidates over all tiers, in tier-then-scan order (source
lines 393–423). -/
def totalCandidates (text : Str) : List AmountCand :=
  totalPatterns.foldl
    (fun acc Pp => acc ++ (allMatches Pp.1 text).filterMap (candOf text Pp.2))
    []

/-- Does `c` beat the current best under the sort comparator (higher
score first, then higher amount)?  Strict comparison keeps the earliest
candidate on full ties, matching the stable sort. -/
def better (c best : AmountCand) : Bool :=
  best.score < c.score || (best.score == c.score && best.cents < c.cents)

/-- Head of the sorted candidate list (source lines 428–433). -/
def pickBest : List AmountCand → Option AmountCand
  | [] => none
  | c :: rest => some (rest.foldl (fun b x => if better x b then x else b) c)

/-- `/(?:aud|usd|cad|balance\s*due|tendered)/i` (source line 439). -/
def dollarIndicators : RE :=
  altL [lit "aud", lit "usd", lit "cad",
        seqL [lit "balance", wsStar, lit "due"], lit "tendered"]

/-- Currency detection (source lines 436–441): dollar iff the text
contains a literal dollar sign or matches the dollar-indicator
pattern. -/
def currencyIsDollar (text : Str) : Bool :=
  containsCS text ['$'] || testRE dollarIndicators text

/-- The chosen currency symbol: `$`, or the source's mis-encoded rupee
literal. -/
def currencySymbol (text : Str) : Str :=
  if currencyIsDollar text then ['$'] else mojiRupee

/-- `toFixed(0)` for whole amounts, `toFixed(2)` otherwise (source
lines 444–446). -/
def amountToFixed (cents : Nat) : Str :=
  if cents % 100 == 0 then natRepr (cents / 100)
  else natRepr (cents / 100) ++ '.' ::
    (if cents % 100 < 10 then '0' :: natRepr (cents % 100) else natRepr (cents % 100))

/-- `extractTotal` (source lines 348–449). -/
def extractTotal (text : Str) : Option Str :=
  match pickBest (totalCandidates text) with
  | none => none
  | some best => some (currencySymbol text ++ amountToFixed best.cents)

/-! ## Assembly and validation -/

/-- `ReceiptData` (source lines 6–11). -/
structure ReceiptData : Type where
  vendor : Option Str
  date : Option Str
  total : Option Str
  rawText : Str
deriving DecidableEq, Repr

/-- `extractReceiptData` (source lines 18–36); `today` stands for the
clock reads inside date extraction. -/
def extractReceiptData (today : JsDate) (text : Str) : ReceiptData :=
  if text.isEmpty then ⟨none, none, none, text⟩
  else
    let cleanText := jsTrim text
    ⟨extractVendor cleanText, extractDate today cleanText,
     extractTotal cleanText, cleanText⟩

/-- The validation result (source lines 454–457). -/
structure ValidationResult : Type where
  isValid : Bool
  errors : List Str
deriving DecidableEq, Repr

/-- JS falsiness of a nullable string field (the `!data.vendor` tests):
the field is missing when it is null or the empty string. -/
def isFalsyField : Option Str → Bool
  | none => true
  | some s => s.isEmpty

/-- `validateReceiptData` (source lines 454–476): one fixed message per
JS-falsy field, in the order vendor, date, total. -/
def validateReceiptData (data : ReceiptData) : ValidationResult :=
  let errors :=
    (if isFalsyField data.vendor then ["Vendor name not found".data] else []) ++
    (if isFalsyField data.date then ["Date not found".data] else []) ++
    (if isFalsyField data.total then ["Total amount not found".data] else [])
  ⟨errors.isEmpty, errors⟩

/-! ## Specification-side comparison definitions -/

/-- Modelled from the spec's words ("an ordered sequence of trimmed,
non-empty strings derived from ReceiptText … dropping blank lines"):
the normalized line sequence as the specification describes it, for
comparison with the source's `linesOf`. -/
def specNormalizedLines (text : Str) : List Str :=
  ((text.splitOn '\n').map jsTrim).filter fun l => !l.isEmpty

/-- Modelled from the spec's words ("+2 if the match's character offset
falls within the last 30% of the text"): the candidate score with the
position bonus taken at the match's own offset, for comparison with the
source's `totalScore` which uses the first occurrence of the matched
text. -/
def specTotalScore (text : Str) (priority : Nat) (m : RawMatch) : Nat :=
  let cents := parseAmountCents (cleanAmount m.cap)
  priority
    + (if m.cap.contains '.' then 2 else 0)
    + (if 1000 ≤ cents && cents ≤ 10000000 then 3 else 0)
    + (if cents % 500 == 0 then 1 else 0)
    + (if 10 * m.pos > 7 * text.length then 2 else 0)

/-- One lexicon entry's hit condition, as a standalone predicate: exact
case-insensitive containment, or — for multi-word entries — containment
of any single word longer than 3 characters. -/
def entryHits (text v : Str) : Bool :=
  containsCI text v ||
    (decide ((v.splitOn ' ').length > 1) &&
      (v.splitOn ' ').any fun w => decide (w.length > 3) && containsCI text w)

/-- Every pattern driven through a global `exec` loop: the nine date
patterns and the eight total patterns. -/
def allScannedPatterns : List Pat :=
  datePatterns ++ totalPatterns.map Prod.fst

/-! ## Lemmas about the scanning machinery -/

theorem findSome?_exists {α β : Type} (f : α → Option β) :
    ∀ (l : List α) (b : β), l.findSome? f = some b → ∃ a, a ∈ l ∧ f a = some b := by
  intro l
  induction l with
  | nil => intro b h; simp [List.findSome?_nil] at h
  | cons x xs ih =>
    intro b h
    rw [List.findSome?_cons] at h
    cases hx : f x with
    | some y =>
      rw [hx] at h
      simp at h
      exact ⟨x, List.mem_cons_self x xs, by rw [hx, h]⟩
    | none =>
      rw [hx] at h
      obtain ⟨a, ha, hfa⟩ := ih b h
      exact ⟨a, List.mem_cons_of_mem x ha, hfa⟩

theorem head?_mem {α : Type} {l : List α} {a : α} (h : l.head? = some a) :
    a ∈ l := by
  cases l with
  | nil => simp at h
  | cons x xs => simp at h; simp [h]

theorem tryAt_parts (P : Pat) (s : Str) (i a b c : Nat)
    (h : tryAt P s i = some (a, b, c)) :
    a ∈ matchList P.pre (s.drop i) ∧ b ∈ matchList P.grp ((s.drop i).drop a) ∧
      c ∈ matchList P.post (((s.drop i).drop a).drop b) := by
  simp only [tryAt] at h
  obtain ⟨a', ha', h2⟩ := findSome?_exists _ _ _ h
  obtain ⟨b', hb', h3⟩ := findSome?_exists _ _ _ h2
  cases hh : (matchList P.post (((s.drop i).drop a').drop b')).head? with
  | none => rw [hh] at h3; simp at h3
  | some c' =>
    rw [hh] at h3
    simp only [Option.map_some', Option.some.injEq, Prod.mk.injEq] at h3
    obtain ⟨rfl, rfl, rfl⟩ := h3
    exact ⟨ha', hb', head?_mem hh⟩

theorem tryAt_grp_pos (P : Pat) (hg : 1 ≤ minConsume P.grp) (s : Str)
    (i a b c : Nat) (h : tryAt P s i = some (a, b, c)) : 1 ≤ b := by
  have := (tryAt_parts P s i a b c h).2.1
  have := matchList_min_le P.grp _ _ this
  omega

theorem firstFrom_some (P : Pat) (s : Str) :
    ∀ (k i : Nat) (m : RawMatch), firstFrom P s k i = some m →
      i ≤ m.pos ∧ ∃ abc, tryAt P s m.pos = some abc ∧ m = mkMatch s m.pos abc := by
  intro k
  induction k with
  | zero => intro i m h; simp [firstFrom] at h
  | succ k ih =>
    intro i m h
    rw [firstFrom] at h
    cases ht : tryAt P s i with
    | some abc =>
      rw [ht] at h
      obtain ⟨a, b, c⟩ := abc
      cases h
      exact ⟨le_refl _, (a, b, c), ht, rfl⟩
    | none =>
      rw [ht] at h
      by_cases hi : i < s.length
      · simp only [hi, if_true] at h
        obtain ⟨h1, h2⟩ := ih (i + 1) m h
        exact ⟨by omega, h2⟩
      · simp [hi] at h

theorem mkMatch_pos (s : Str) (i : Nat) (abc : Nat × Nat × Nat) :
    (mkMatch s i abc).pos = i := by
  obtain ⟨a, b, c⟩ := abc; rfl

theorem mkMatch_len (s : Str) (i : Nat) (abc : Nat × Nat × Nat) :
    (mkMatch s i abc).len = abc.1 + abc.2.1 + abc.2.2 := by
  obtain ⟨a, b, c⟩ := abc; rfl

theorem scanFrom_mem (P : Pat) (s : Str) :
    ∀ (f i : Nat) (m : RawMatch), m ∈ scanFrom P s f i →
      i ≤ m.pos ∧ ∃ abc, tryAt P s m.pos = some abc ∧ m = mkMatch s m.pos abc := by
  intro f
  induction f with
  | zero => intro i m h; simp [scanFrom] at h
  | succ f ih =>
    intro i m h
    rw [scanFrom] at h
    cases hf : firstFrom P s (s.length + 1 - i) i with
    | none => rw [hf] at h; simp at h
    | some m0 =>
      rw [hf] at h
      obtain ⟨h01, h02⟩ := firstFrom_some P s _ i m0 hf
      rcases List.mem_cons.mp h with rfl | h
      · exact ⟨h01, h02⟩
      · obtain ⟨h1, h2⟩ := ih (m0.pos + m0.len) m h
        exact ⟨by omega, h2⟩

theorem scanFrom_len_pos (P : Pat) (hg : 1 ≤ minConsume P.grp) (s : Str)
    (f i : Nat) (m : RawMatch) (hm : m ∈ scanFrom P s f i) : 1 ≤ m.len := by
  obtain ⟨-, ⟨a, b, c⟩, ht, hm'⟩ := scanFrom_mem P s f i m hm
  have hb := tryAt_grp_pos P hg s _ a b c ht
  rw [hm']
  simp only [mkMatch]
  omega

theorem scanFrom_chain (P : Pat) (hg : 1 ≤ minConsume P.grp) (s : Str) :
    ∀ (f i : Nat),
      List.Chain' (fun x y => x.pos + x.len ≤ y.pos ∧ x.pos < y.pos)
        (scanFrom P s f i) := by
  intro f
  induction f with
  | zero => intro i; simp [scanFrom]
  | succ f ih =>
    intro i
    rw [scanFrom]
    cases hf : firstFrom P s (s.length + 1 - i) i with
    | none => simp
    | some m0 =>
      rw [List.chain'_cons']
      refine ⟨?_, ih (m0.pos + m0.len)⟩
      intro y hy
      have hymem : y ∈ scanFrom P s f (m0.pos + m0.len) := head?_mem hy
      have h1 := (scanFrom_mem P s f _ y hymem).1
      have h2 : 1 ≤ m0.len := by
        obtain ⟨-, ⟨a, b, c⟩, ht, hm'⟩ := firstFrom_some P s _ i m0 hf
        have hb := tryAt_grp_pos P hg s _ a b c ht
        rw [hm']
        simp only [mkMatch]
        omega
      exact ⟨h1, by omega⟩

theorem scanFrom_fuel_stable (P : Pat) (hg : 1 ≤ minConsume P.grp) (s : Str) :
    ∀ (f i : Nat), s.length + 1 ≤ f + i →
      scanFrom P s f i = scanFrom P s (f + 1) i := by
  intro f
  induction f with
  | zero =>
    intro i hb
    have h0 : s.length + 1 - i = 0 := by omega
    simp [scanFrom, h0, firstFrom]
  | succ f ih =>
    intro i hb
    rw [scanFrom, scanFrom]
    cases hf : firstFrom P s (s.length + 1 - i) i with
    | none => rfl
    | some m0 =>
      obtain ⟨h01, habc⟩ := firstFrom_some P s _ i m0 hf
      have h2 : 1 ≤ m0.len := by
        obtain ⟨⟨a, b, c⟩, ht, hm'⟩ := habc
        have hb := tryAt_grp_pos P hg s _ a b c ht
        rw [hm']
        simp only [mkMatch]
        omega
      dsimp only
      rw [ih (m0.pos + m0.len) (by omega)]

/-! ## Lemmas about candidate selection and the lexicon -/

theorem foldl_better_mem (rest : List AmountCand) :
    ∀ b : AmountCand,
      rest.foldl (fun b x => if better x b then x else b) b = b ∨
      rest.foldl (fun b x => if better x b then x else b) b ∈ rest := by
  induction rest with
  | nil => intro b; left; rfl
  | cons x xs ih =>
    intro b
    simp only [List.foldl_cons]
    by_cases h : better x b
    · simp only [h, if_true]
      rcases ih x with h' | h'
      · right; rw [h']; exact List.mem_cons_self x xs
      · right; exact List.mem_cons_of_mem x h'
    · simp only [h, if_false]
      rcases ih b with h' | h'
      · left; exact h'
      · right; exact List.mem_cons_of_mem x h'

theorem pickBest_mem (l : List AmountCand) (c : AmountCand)
    (h : pickBest l = some c) : c ∈ l := by
  cases l with
  | nil => simp [pickBest] at h
  | cons x xs =>
    simp only [pickBest, Option.some.injEq] at h
    rcases foldl_better_mem xs x with h' | h'
    · rw [← h, h']; exact List.mem_cons_self x xs
    · rw [← h]; exact List.mem_cons_of_mem x h'

theorem foldl_append_mem {β : Type} (g : β → List AmountCand) :
    ∀ (L : List β) (acc : List AmountCand) (x : AmountCand),
      x ∈ L.foldl (fun a b => a ++ g b) acc → x ∈ acc ∨ ∃ b, b ∈ L ∧ x ∈ g b := by
  intro L
  induction L with
  | nil => intro acc x h; left; exact h
  | cons y ys ih =>
    intro acc x h
    simp only [List.foldl_cons] at h
    rcases ih (acc ++ g y) x h with h' | ⟨b, hb, hx⟩
    · rcases List.mem_append.mp h' with h'' | h''
      · left; exact h''
      · right; exact ⟨y, List.mem_cons_self y ys, h''⟩
    · right; exact ⟨b, List.mem_cons_of_mem y hb, hx⟩

theorem candOf_some (t : Str) (p : Nat) (m : RawMatch) (c : AmountCand)
    (h : candOf t p m = some c) :
    0 < c.cents ∧
      c = ⟨parseAmountCents (cleanAmount m.cap), totalScore t p m, m.cap⟩ := by
  simp only [candOf] at h
  by_cases hp : 0 < parseAmountCents (cleanAmount m.cap)
  · simp only [hp, if_true, Option.some.injEq] at h
    constructor
    · rw [← h]; exact hp
    · rw [← h]
  · simp [hp] at h

theorem totalCandidates_mem (t : Str) (c : AmountCand)
    (h : c ∈ totalCandidates t) :
    ∃ Pp, Pp ∈ totalPatterns ∧
      ∃ m, m ∈ allMatches Pp.1 t ∧ candOf t Pp.2 m = some c := by
  unfold totalCandidates at h
  rcases foldl_append_mem _ totalPatterns [] c h with h' | ⟨Pp, hPp, hx⟩
  · simp at h'
  · obtain ⟨m, hm, hcm⟩ := List.mem_filterMap.mp hx
    exact ⟨Pp, hPp, m, hm, hcm⟩

theorem lexiconFind_eq_find? (text : Str) :
    ∀ l : List Str,
      (l.findSome? fun vendor =>
        if containsCI text vendor then some (titleCaseWords vendor)
        else
          let words := vendor.splitOn ' '
          if words.length > 1 then
            (words.find? fun w => decide (w.length > 3) && containsCI text w).map
              fun _ => titleCaseWords vendor
          else none) =
      (l.find? (entryHits text)).map titleCaseWords := by
  intro l
  induction l with
  | nil => simp [List.findSome?_nil]
  | cons v vs ih =>
    rw [List.findSome?_cons, List.find?_cons]
    by_cases h1 : containsCI text v
    · have hv : entryHits text v = true := by simp [entryHits, h1]
      simp [h1, hv]
    · by_cases h2 : (v.splitOn ' ').length > 1
      · cases hf : (v.splitOn ' ').find?
            (fun w => decide (w.length > 3) && containsCI text w) with
        | some w =>
          have hmem := List.mem_of_find?_eq_some hf
          have hpw := List.find?_some hf
          have hv : entryHits text v = true := by
            simp only [entryHits, h1, Bool.false_or, Bool.and_eq_true,
              decide_eq_true_eq, List.any_eq_true]
            exact ⟨by omega, w, hmem, by simpa using hpw⟩
          simp [h1, h2, hf, hv]
        | none =>
          have hv : entryHits text v = false := by
            simp only [entryHits, h1, Bool.false_or, Bool.and_eq_false_iff,
              List.any_eq_false]
            right
            intro w hwmem
            have := List.find?_eq_none.mp hf w hwmem
            simpa using this
          simp [h1, h2, hf, hv, ih]
      · have hv : entryHits text v = false := by
          simp only [entryHits, h1, Bool.false_or, Bool.and_eq_false_iff]
          left
          simpa using h2
        simp [h1, h2, hv, ih]

theorem ite_range_bridge (X : Nat) :
    (if 1000 ≤ X && X ≤ 10000000 then (3 : Nat) else 0) =
      if 1000 ≤ X ∧ X ≤ 10000000 then 3 else 0 := by
  by_cases h1 : 1000 ≤ X <;> by_cases h2 : X ≤ 10000000 <;> simp [h1, h2]

theorem ite_mod_bridge (X : Nat) :
    (if X % 500 == 0 then (1 : Nat) else 0) = if X % 500 = 0 then 1 else 0 := by
  by_cases h : X % 500 = 0 <;> simp [h]

theorem extractReceiptData_cons (d : JsDate) (c : Char) (rest : Str) :
    extractReceiptData d (c :: rest) =
      ⟨extractVendor (jsTrim (c :: rest)), extractDate d (jsTrim (c :: rest)),
       extractTotal (jsTrim (c :: rest)), jsTrim (c :: rest)⟩ := rfl

theorem isFalsyField_false_iff (o : Option Str) :
    isFalsyField o = false ↔ o ≠ none ∧ o ≠ some [] := by
  cases o with
  | none => simp [isFalsyField]
  | some s => simp [isFalsyField, List.isEmpty_iff]

/-! ## The claims -/

set_option maxHeartbeats 64000000 in
/-- C1 (counterexample): on the five-line scenario text the code
returns neither the claimed vendor nor the claimed total.  The first
line "McDonald's India" (two words) passes the business-name scan, which
runs before the lexicon, so the vendor is "Mcdonald's India" rather than
"Mcdonald's"; and the winning amount 649.00 is a whole number, so the
total carries no decimals (and the source's rupee literal is the
mis-encoded three-character sequence, which a genuine `₹` also fails to
match in the patterns). -/
theorem claimC1_counterexample :
    (extractReceiptData ⟨2025, 10, 11⟩ "McDonald's India\nDate: 07/08/2025\nBig Mac Meal - ₹350.00\nTotal: ₹649.00\nThank you!".data).vendor
        ≠ some "Mcdonald's".data ∧
    (extractReceiptData ⟨2025, 10, 11⟩ "McDonald's India\nDate: 07/08/2025\nBig Mac Meal - ₹350.00\nTotal: ₹649.00\nThank you!".data).total
        ≠ some "₹649.00".data := by
  have hv : (extractReceiptData ⟨2025, 10, 11⟩ "McDonald's India\nDate: 07/08/2025\nBig Mac Meal - ₹350.00\nTotal: ₹649.00\nThank you!".data).vendor
      = some "Mcdonald's India".data := rfl
  have ht : (extractReceiptData ⟨2025, 10, 11⟩ "McDonald's India\nDate: 07/08/2025\nBig Mac Meal - ₹350.00\nTotal: ₹649.00\nThank you!".data).total
      = some (mojiRupee ++ "649".data) := rfl
  rw [hv, ht]
  constructor <;> decide

set_option maxHeartbeats 64000000 in
/-- C1 (amended): on the five-line scenario text, for every current
date, `extractReceiptData` returns vendor "Mcdonald's India" (the first
line, title-cased, found by the business-name scan that precedes the
lexicon), date "07/08/2025", and a total consisting of the source's
mis-encoded rupee literal followed by "649" (the winning amount 649.00
is whole, so zero decimal places); the raw text is the input itself. -/
theorem claimC1_amended :
    ∀ today : JsDate,
      extractReceiptData today "McDonald's India\nDate: 07/08/2025\nBig Mac Meal - ₹350.00\nTotal: ₹649.00\nThank you!".data =
        ⟨some "Mcdonald's India".data, some "07/08/2025".data,
         some (mojiRupee ++ "649".data),
         "McDonald's India\nDate: 07/08/2025\nBig Mac Meal - ₹350.00\nTotal: ₹649.00\nThank you!".data⟩ :=
  fun _ => rfl

set_option maxHeartbeats 16000000 in
/-- C2 (counterexample): the input "Total: ₹235.00" contains that very
text and no dollar indicator, yet `extractTotal` returns the
mis-encoded rupee literal followed by "235" — 235.00 is whole, so it is
printed with zero decimals, and the pattern set never matches a genuine
rupee sign — not the claimed "₹235.00". -/
theorem claimC2_counterexample :
    containsCS "Total: ₹235.00".data "Total: ₹235.00".data = true ∧
    currencyIsDollar "Total: ₹235.00".data = false ∧
    extractTotal "Total: ₹235.00".data = some (mojiRupee ++ "235".data) ∧
    mojiRupee ++ "235".data ≠ "₹235.00".data := by
  refine ⟨rfl, rfl, rfl, by decide⟩

set_option maxHeartbeats 16000000 in
/-- C2 (amended): input exactly "TOTAL $35.46" yields "$35.46"; input
exactly "Total: ₹235.00" yields the mis-encoded rupee literal followed
by "235"; and in general every non-null result is the currency symbol
(the dollar sign iff the text contains a literal `$` or matches the
dollar-indicator pattern, the mis-encoded rupee literal otherwise)
followed by the winning positive amount, printed without decimals when
it is whole and with exactly two decimal digits otherwise. -/
theorem claimC2_amended :
    extractTotal "TOTAL $35.46".data = some "$35.46".data ∧
    extractTotal "Total: ₹235.00".data = some (mojiRupee ++ "235".data) ∧
    ∀ (t r : Str), extractTotal t = some r →
      ∃ best : AmountCand, pickBest (totalCandidates t) = some best ∧
        0 < best.cents ∧
        r = currencySymbol t ++ amountToFixed best.cents ∧
        (currencyIsDollar t = true ↔
          (containsCS t ['$'] = true ∨ testRE dollarIndicators t = true)) ∧
        currencySymbol t = (if currencyIsDollar t then ['$'] else mojiRupee) ∧
        (best.cents % 100 = 0 →
          amountToFixed best.cents = natRepr (best.cents / 100)) ∧
        (best.cents % 100 ≠ 0 →
          amountToFixed best.cents =
            natRepr (best.cents / 100) ++ '.' ::
              (if best.cents % 100 < 10 then '0' :: natRepr (best.cents % 100)
               else natRepr (best.cents % 100))) := by
  refine ⟨rfl, rfl, ?_⟩
  intro t r h
  unfold extractTotal at h
  cases hpb : pickBest (totalCandidates t) with
  | none => rw [hpb] at h; simp at h
  | some best =>
    rw [hpb] at h
    simp only [Option.some.injEq] at h
    have hmem := pickBest_mem _ _ hpb
    obtain ⟨Pp, -, m, -, hcand⟩ := totalCandidates_mem t best hmem
    have hpos := (candOf_some t Pp.2 m best hcand).1
    refine ⟨best, rfl, hpos, h.symm, ?_, ?_, ?_, ?_⟩
    · simp [currencyIsDollar, Bool.or_eq_true]
    · rfl
    · intro hw
      simp [amountToFixed, hw]
    · intro hw
      have hw' : (best.cents % 100 == 0) = false := by
        simp [hw]
      simp [amountToFixed, hw']

set_option maxHeartbeats 16000000 in
/-- C2 (witness): the general clause of the amended claim instantiated
at the dollar scenario input. -/
theorem claimC2_amended_witness :
    extractTotal "TOTAL $35.46".data = some "$35.46".data ∧
    ∃ best : AmountCand,
      pickBest (totalCandidates "TOTAL $35.46".data) = some best ∧
      0 < best.cents ∧
      "$35.46".data = currencySymbol "TOTAL $35.46".data ++ amountToFixed best.cents ∧
      (currencyIsDollar "TOTAL $35.46".data = true ↔
        (containsCS "TOTAL $35.46".data ['$'] = true ∨
          testRE dollarIndicators "TOTAL $35.46".data = true)) ∧
      currencySymbol "TOTAL $35.46".data =
        (if currencyIsDollar "TOTAL $35.46".data then ['$'] else mojiRupee) ∧
      (best.cents % 100 = 0 →
        amountToFixed best.cents = natRepr (best.cents / 100)) ∧
      (best.cents % 100 ≠ 0 →
        amountToFixed best.cents =
          natRepr (best.cents / 100) ++ '.' ::
            (if best.cents % 100 < 10 then '0' :: natRepr (best.cents % 100)
             else natRepr (best.cents % 100))) :=
  ⟨rfl, claimC2_amended.2.2 "TOTAL $35.46".data "$35.46".data rfl⟩

set_option maxHeartbeats 16000000 in
/-- C3 (confirmed): empty input returns the all-null record with the
input as raw text without consulting any extractor; on every input the
raw text is the trimmed input; and on non-empty input each of the three
fields is exactly its extractor's independent output on the trimmed
text. -/
theorem claimC3_assembler :
    (∀ today : JsDate, extractReceiptData today [] = ⟨none, none, none, []⟩) ∧
    (∀ (today : JsDate) (t : Str),
      (extractReceiptData today t).rawText = jsTrim t) ∧
    (∀ (today : JsDate) (t : Str), t ≠ [] →
      extractReceiptData today t =
        ⟨extractVendor (jsTrim t), extractDate today (jsTrim t),
         extractTotal (jsTrim t), jsTrim t⟩) := by
  refine ⟨fun _ => rfl, ?_, ?_⟩
  · intro today t
    cases t with
    | nil => rfl
    | cons c rest => rfl
  · intro today t ht
    cases t with
    | nil => exact absurd rfl ht
    | cons c rest => rfl

set_option maxHeartbeats 16000000 in
/-- C3 (witness): the non-empty clause instantiated at a one-character
input. -/
theorem claimC3_assembler_witness :
    ("x".data ≠ ([] : Str)) ∧
    extractReceiptData ⟨2025, 1, 1⟩ "x".data =
      ⟨extractVendor (jsTrim "x".data), extractDate ⟨2025, 1, 1⟩ (jsTrim "x".data),
       extractTotal (jsTrim "x".data), jsTrim "x".data⟩ :=
  ⟨by decide, claimC3_assembler.2.2 ⟨2025, 1, 1⟩ "x".data (by decide)⟩

set_option maxHeartbeats 16000000 in
/-- C4 (counterexample): "15 January 2025" is matched by the
full-month-name date pattern, but `formatDate` turns it into
"15/01uary/2025" — the abbreviation "jan" is substituted inside
"January", leaving the residue "01uary" — which is neither the original
matched string nor a digits-and-slashes DD/MM/YYYY form, contradicting
the claimed alternative. -/
theorem claimC4_counterexample :
    extractDate ⟨2025, 10, 11⟩ "15 January 2025".data = some "15/01uary/2025".data ∧
    formatDate 2025 "15 January 2025".data = "15/01uary/2025".data ∧
    "15/01uary/2025".data ≠ "15 January 2025".data ∧
    ¬("15/01uary/2025".data.all fun c => isDigitC c || c == '/') = true := by
  refine ⟨rfl, rfl, by decide, by decide⟩

set_option maxHeartbeats 16000000 in
/-- C4 (amended): separators are converted to slashes and the month map
is applied in its fixed order — so three-letter abbreviations become the
two-digit numeral while full month names keep their tail ("January"
becomes "01uary") — the result is split on slashes and whitespace,
day and month are left-padded, a two-digit year is expanded with the
current century, floor(currentYear/100)·100 + yy ("07 Jul 24" becomes
"07/07/2024" when the current year is 2025 and "07/07/2124" when it is
2150), and whenever the split yields fewer than three parts the
original matched string is returned unchanged (`formatDate` is total,
so it never throws). -/
theorem claimC4_amended :
    formatDate 2025 "07 Jul 24".data = "07/07/2024".data ∧
    formatDate 2150 "07 Jul 24".data = "07/07/2124".data ∧
    formatDateNormalize "15 January 2025".data = "15 01uary 2025".data ∧
    formatDateNormalize "07 Jul 24".data = "07 07 24".data ∧
    ∀ (y : Nat) (s : Str), (formatDateParts s).length < 3 → formatDate y s = s := by
  refine ⟨rfl, rfl, rfl, rfl, ?_⟩
  intro y s h
  cases hp : formatDateParts s with
  | nil => simp [formatDate, hp]
  | cons a t =>
    cases t with
    | nil => simp [formatDate, hp]
    | cons b t2 =>
      cases t2 with
      | nil => simp [formatDate, hp]
      | cons c t3 =>
        rw [hp] at h
        simp only [List.length_cons] at h
        omega

set_option maxHeartbeats 16000000 in
/-- C4 (witness): the fewer-than-three-parts clause instantiated at a
partless string. -/
theorem claimC4_amended_witness :
    (formatDateParts "hello".data).length < 3 ∧
    formatDate 2025 "hello".data = "hello".data :=
  ⟨by decide, claimC4_amended.2.2.2.2 2025 "hello".data (by decide)⟩

/-- C5 (counterexample): the program tests JS falsiness, not null-ness:
a record whose vendor is the empty string — non-null, as are its date
and total — is reported invalid with a vendor error, so neither
"isValid iff vendor, date and total are all non-null" nor "exactly one
message per null field" holds of the code. -/
theorem claimC5_counterexample :
    (some ([] : Str) ≠ none ∧ some "x".data ≠ (none : Option Str) ∧
      some "y".data ≠ (none : Option Str)) ∧
    validateReceiptData ⟨some [], some "x".data, some "y".data, []⟩ =
      ⟨false, ["Vendor name not found".data]⟩ := by
  exact ⟨⟨by decide, by decide, by decide⟩, rfl⟩

/-- C5 (amended): validation succeeds exactly when all three fields are
JS-truthy — non-null and non-empty — the error list holds one fixed
message per falsy field in the order vendor, date, total, validity is
equivalent to an empty error list, and a record whose only missing
field is a null date yields exactly ["Date not found"]. -/
theorem claimC5_amended :
    (∀ d : ReceiptData,
      ((validateReceiptData d).isValid = true ↔
        (d.vendor ≠ none ∧ d.vendor ≠ some []) ∧
        (d.date ≠ none ∧ d.date ≠ some []) ∧
        (d.total ≠ none ∧ d.total ≠ some [])) ∧
      ((validateReceiptData d).isValid = true ↔
        (validateReceiptData d).errors = []) ∧
      (validateReceiptData d).errors =
        (if isFalsyField d.vendor then ["Vendor name not found".data] else []) ++
        (if isFalsyField d.date then ["Date not found".data] else []) ++
        (if isFalsyField d.total then ["Total amount not found".data] else [])) ∧
    validateReceiptData ⟨some "v".data, none, some "t".data, []⟩ =
      ⟨false, ["Date not found".data]⟩ := by
  constructor
  · intro d
    obtain ⟨v, dt, tt, raw⟩ := d
    refine ⟨?_, ?_, rfl⟩
    · rw [← isFalsyField_false_iff v, ← isFalsyField_false_iff dt,
        ← isFalsyField_false_iff tt]
      by_cases h1 : isFalsyField v <;> by_cases h2 : isFalsyField dt <;>
        by_cases h3 : isFalsyField tt <;>
        simp [validateReceiptData, h1, h2, h3]
    · by_cases h1 : isFalsyField v <;> by_cases h2 : isFalsyField dt <;>
        by_cases h3 : isFalsyField tt <;>
        simp [validateReceiptData, h1, h2, h3]
  · rfl

set_option maxHeartbeats 16000000 in
/-- C6 (counterexample): the extractors operate on the raw trimmed
lines with blank entries retained, not on the blank-dropped sequence.
On an input of five blank lines followed by "Alpha Beta Gamma", the
spec's sequence consists of that one non-empty line — which passes the
business-name test, so a scan over the first five entries of the spec's
sequence would return it — yet `extractVendor` returns nothing, because
its five-line window holds only the blank entries. -/
theorem claimC6_counterexample :
    specNormalizedLines "\n\n\n\n\nAlpha Beta Gamma".data = ["Alpha Beta Gamma".data] ∧
    isLikelyBusinessName "Alpha Beta Gamma".data = true ∧
    linesOf "\n\n\n\n\nAlpha Beta Gamma".data ≠
      specNormalizedLines "\n\n\n\n\nAlpha Beta Gamma".data ∧
    extractVendor "\n\n\n\n\nAlpha Beta Gamma".data = none := by
  refine ⟨rfl, rfl, by decide, rfl⟩

set_option maxHeartbeats 16000000 in
/-- C6 (amended): the line sequence the vendor extractor operates on is
the input split on newlines with every line trimmed and blank lines
retained as empty entries; the spec's non-empty sequence is exactly its
filtration; the empty input yields the one-entry sequence of an empty
line (whose filtration is empty); the initial scan covers the first
five entries of the raw sequence — whatever it returns is one of those
five entries and passes the business-name test — and the lexicon and
fallback passes run only when that scan fails. -/
theorem claimC6_amended :
    (∀ t : Str, specNormalizedLines t = (linesOf t).filter fun l => !l.isEmpty) ∧
    linesOf [] = [[]] ∧ specNormalizedLines [] = [] ∧
    (∀ (t l : Str),
      ((linesOf t).take 5).find? isLikelyBusinessName = some l →
        l ∈ (linesOf t).take 5 ∧ isLikelyBusinessName l = true) ∧
    (∀ t : Str, extractVendor t =
      match ((linesOf t).take 5).find? isLikelyBusinessName with
      | some line => some (formatVendorName line)
      | none =>
        match lexiconFind t with
        | some v => some v
        | none => (((linesOf t).take 4).find? isLikelyVendorName).map formatVendorName) := by
  refine ⟨fun t => rfl, rfl, rfl, ?_, fun t => rfl⟩
  intro t l h
  exact ⟨List.mem_of_find?_eq_some h, List.find?_some h⟩

/-- C6 (witness): the window clause instantiated at a two-line input
whose first line is a business name. -/
theorem claimC6_amended_witness :
    ((linesOf "Bistro Box\nx".data).take 5).find? isLikelyBusinessName =
        some "Bistro Box".data ∧
    "Bistro Box".data ∈ (linesOf "Bistro Box\nx".data).take 5 ∧
    isLikelyBusinessName "Bistro Box".data = true :=
  ⟨rfl, claimC6_amended.2.2.2.1 "Bistro Box\nx".data "Bistro Box".data rfl⟩

set_option maxHeartbeats 64000000 in
/-- C7 (counterexample): the position bonus is computed from
`text.indexOf(match[0])` — the first occurrence of the matched text —
not from the match's own offset.  On a text whose final tier-1 match
"Total 15.00" (offset 45 of 56, inside the last 30%) repeats the text of
an早 earlier match at offset 0, the code scores it 16, while the claimed
formula (with the match's own offset) gives 18. -/
theorem claimC7_counterexample :
    allMatches totalPat1.1
        "Total 15.00 Total 20.00 xxxxxxxxxxxxxxxxxxxx Total 15.00".data =
      [⟨0, 11, "Total 15.00".data, "15.00".data⟩,
       ⟨12, 11, "Total 20.00".data, "20.00".data⟩,
       ⟨45, 11, "Total 15.00".data, "15.00".data⟩] ∧
    10 * 45 > 7 * "Total 15.00 Total 20.00 xxxxxxxxxxxxxxxxxxxx Total 15.00".data.length ∧
    totalScore "Total 15.00 Total 20.00 xxxxxxxxxxxxxxxxxxxx Total 15.00".data
        totalPat1.2 ⟨45, 11, "Total 15.00".data, "15.00".data⟩ = 16 ∧
    specTotalScore "Total 15.00 Total 20.00 xxxxxxxxxxxxxxxxxxxx Total 15.00".data
        totalPat1.2 ⟨45, 11, "Total 15.00".data, "15.00".data⟩ = 18 ∧
    candOf "Total 15.00 Total 20.00 xxxxxxxxxxxxxxxxxxxx Total 15.00".data
        totalPat1.2 ⟨45, 11, "Total 15.00".data, "15.00".data⟩ =
      some ⟨1500, 16, "15.00".data⟩ := by
  refine ⟨rfl, by decide, rfl, rfl, rfl⟩

/-- C7 (amended): every candidate a tier contributes for a match is
kept iff its parsed amount is positive (the captured shapes never parse
to NaN), and its score is the tier's priority, plus 2 iff the raw
capture contains a decimal point, plus 3 iff the amount lies in
[10, 100000], plus 1 iff the amount is a multiple of 5, plus 2 iff the
offset of the first occurrence in the text of the matched string lies
in the last 30% of the text; and every candidate in the pool arises
this way from some tier and some match. -/
theorem claimC7_amended :
    (∀ (t : Str) (Pp : Pat × Nat) (m : RawMatch),
      Pp ∈ totalPatterns → m ∈ allMatches Pp.1 t →
      candOf t Pp.2 m =
        (if 0 < parseAmountCents (cleanAmount m.cap) then
          some ⟨parseAmountCents (cleanAmount m.cap),
                Pp.2 + (if m.cap.contains '.' then 2 else 0)
                    + (if 1000 ≤ parseAmountCents (cleanAmount m.cap) ∧
                          parseAmountCents (cleanAmount m.cap) ≤ 10000000 then 3 else 0)
                    + (if parseAmountCents (cleanAmount m.cap) % 500 = 0 then 1 else 0)
                    + (if 10 * ((indexOfSub t m.mstr).getD 0) > 7 * t.length then 2 else 0),
                m.cap⟩
         else none)) ∧
    (∀ (t : Str) (c : AmountCand), c ∈ totalCandidates t →
      0 < c.cents ∧ ∃ Pp, Pp ∈ totalPatterns ∧ ∃ m, m ∈ allMatches Pp.1 t ∧
        candOf t Pp.2 m = some c) := by
  constructor
  · intro t Pp m _ _
    simp only [candOf, totalScore]
    rw [ite_range_bridge, ite_mod_bridge]
  · intro t c hc
    obtain ⟨Pp, hPp, m, hm, hcm⟩ := totalCandidates_mem t c hc
    exact ⟨(candOf_some t Pp.2 m c hcm).1, Pp, hPp, m, hm, hcm⟩

set_option maxHeartbeats 16000000 in
/-- C7 (witness): the scoring clause instantiated at the tier-1 pattern
and its single match on "Total 20". -/
theorem claimC7_amended_witness :
    totalPat1 ∈ totalPatterns ∧
    (⟨0, 8, "Total 20".data, "20".data⟩ : RawMatch) ∈
      allMatches totalPat1.1 "Total 20".data ∧
    candOf "Total 20".data totalPat1.2 ⟨0, 8, "Total 20".data, "20".data⟩ =
      (if 0 < parseAmountCents (cleanAmount ("20".data)) then
        some ⟨parseAmountCents (cleanAmount ("20".data)),
              totalPat1.2 + (if ("20".data).contains '.' then 2 else 0)
                  + (if 1000 ≤ parseAmountCents (cleanAmount ("20".data)) ∧
                        parseAmountCents (cleanAmount ("20".data)) ≤ 10000000 then 3 else 0)
                  + (if parseAmountCents (cleanAmount ("20".data)) % 500 = 0 then 1 else 0)
                  + (if 10 * ((indexOfSub "Total 20".data ("Total 20".data)).getD 0) >
                        7 * ("Total 20".data).length then 2 else 0),
              "20".data⟩
       else none) :=
  ⟨by simp [totalPatterns], by decide,
    claimC7_amended.1 "Total 20".data totalPat1 ⟨0, 8, "Total 20".data, "20".data⟩
      (by simp [totalPatterns]) (by decide)⟩

set_option maxHeartbeats 16000000 in
/-- C8 (counterexample): the input "Starbucks" contains the exact text
"Starbucks", yet `extractVendor` returns "Star Bazaar": the lexicon
entry "star bazaar" precedes "starbucks" in declaration order and hits
first through its word "star" (longer than 3 characters and contained
in the text). -/
theorem claimC8_counterexample :
    containsCS "Starbucks".data "Starbucks".data = true ∧
    extractVendor "Starbucks".data = some "Star Bazaar".data ∧
    some "Star Bazaar".data ≠ some "Starbucks".data := by
  refine ⟨rfl, rfl, by decide⟩

set_option maxHeartbeats 16000000 in
/-- C8 (amended): the lexicon is scanned in declaration order and an
entry hits on exact case-insensitive containment or, for multi-word
entries, on containment of any single word longer than 3 characters,
the first hitting entry being returned title-cased; under that very
rule the input "Starbucks" is claimed by the earlier entry
"star bazaar" (via its word "star"), so `extractVendor` returns
"Star Bazaar", not "Starbucks". -/
theorem claimC8_amended :
    extractVendor "Starbucks".data = some "Star Bazaar".data ∧
    (∀ text : Str,
      lexiconFind text = (knownVendors.find? (entryHits text)).map titleCaseWords) ∧
    entryHits "Starbucks".data "star bazaar".data = true ∧
    knownVendors.find? (entryHits "Starbucks".data) = some "star bazaar".data := by
  refine ⟨rfl, ?_, rfl, rfl⟩
  intro text
  unfold lexiconFind
  exact lexiconFind_eq_find? text knownVendors

/-- C9 (counterexample): `extractDate` reads the current date: on the
input "today" (no explicit date, a today-indicator) its result differs
between two clock values, so the result does not depend on the input
string alone. -/
theorem claimC9_counterexample :
    extractDate ⟨2025, 10, 11⟩ "today".data = some "11/10/2025".data ∧
    extractDate ⟨2026, 1, 2⟩ "today".data = some "02/01/2026".data ∧
    extractDate ⟨2025, 10, 11⟩ "today".data ≠ extractDate ⟨2026, 1, 2⟩ "today".data := by
  refine ⟨rfl, rfl, by decide⟩

/-- C9 (amended): all four operations are deterministic pure functions
of the input text and the current date — two calls with both held equal
agree — and the vendor, total and raw-text components depend on the
text alone; only the date component reads the clock (today-synthesis
and two-digit-year expansion). -/
theorem claimC9_amended :
    (∀ (d d' : JsDate) (t : Str),
      (extractReceiptData d t).vendor = (extractReceiptData d' t).vendor ∧
      (extractReceiptData d t).total = (extractReceiptData d' t).total ∧
      (extractReceiptData d t).rawText = (extractReceiptData d' t).rawText) ∧
    (∀ (d : JsDate) (t : Str), extractReceiptData d t = extractReceiptData d t) ∧
    (∀ t : Str, extractVendor t = extractVendor t ∧ extractTotal t = extractTotal t) := by
  refine ⟨?_, fun d t => rfl, fun t => ⟨rfl, rfl⟩⟩
  intro d d' t
  cases t with
  | nil => exact ⟨rfl, rfl, rfl⟩
  | cons c rest =>
    rw [extractReceiptData_cons d c rest, extractReceiptData_cons d' c rest]
    exact ⟨rfl, rfl, rfl⟩

/-- C10 (confirmed): every date and total pattern's capture consumes at
least one character, so every recorded match is non-empty, consecutive
matches of one global scan strictly advance (the next match starts at
or after the previous match's end), and the scan is already complete at
its default fuel — adding fuel changes nothing, which is the
fuel-based rendering of the `exec` loops' termination; the extractors
are total Lean functions, so they return on all inputs. -/
theorem claimC10_termination :
    ∀ P ∈ allScannedPatterns,
      1 ≤ minConsume P.grp ∧
      ∀ s : Str,
        (∀ m ∈ allMatches P s, 1 ≤ m.len) ∧
        List.Chain' (fun x y => x.pos + x.len ≤ y.pos ∧ x.pos < y.pos)
          (allMatches P s) ∧
        scanFrom P s (s.length + 1) 0 = scanFrom P s (s.length + 2) 0 := by
  intro P hP
  have hg : 1 ≤ minConsume P.grp := by
    fin_cases hP <;> decide
  refine ⟨hg, fun s => ⟨?_, ?_, ?_⟩⟩
  · intro m hm
    exact scanFrom_len_pos P hg s (s.length + 1) 0 m hm
  · exact scanFrom_chain P hg s (s.length + 1) 0
  · exact scanFrom_fuel_stable P hg s (s.length + 1) 0 (by omega)

set_option maxHeartbeats 16000000 in
/-- C10 (witness): the termination facts instantiated at the bare-number
tier and a concrete text with two matches. -/
theorem claimC10_termination_witness :
    totalPat8.1 ∈ allScannedPatterns ∧
    1 ≤ minConsume totalPat8.1.grp ∧
    (∀ m ∈ allMatches totalPat8.1 "Total: 42 and 17".data, 1 ≤ m.len) ∧
    List.Chain' (fun x y => x.pos + x.len ≤ y.pos ∧ x.pos < y.pos)
      (allMatches totalPat8.1 "Total: 42 and 17".data) ∧
    scanFrom totalPat8.1 "Total: 42 and 17".data
        ("Total: 42 and 17".data.length + 1) 0 =
      scanFrom totalPat8.1 "Total: 42 and 17".data
        ("Total: 42 and 17".data.length + 2) 0 := by
  have hmem : totalPat8.1 ∈ allScannedPatterns := by
    simp [allScannedPatterns, totalPatterns]
  have h := claimC10_termination totalPat8.1 hmem
  exact ⟨hmem, h.1, (h.2 "Total: 42 and 17".data).1,
    (h.2 "Total: 42 and 17".data).2.1, (h.2 "Total: 42 and 17".data).2.2⟩

end OneClick
